import Mathlib

/-!
Verification of the obsidian-pinbox-syncer core against its source.

The development shallowly embeds the sync and fetch pipeline of the plugin:

* `src/src/syncService.ts` — filename sanitization (`sanitizeFileName`),
  create-or-skip materialization (`createOrUpdateBookmark`), the sync loop
  (`sync`), the retrying web-content fetcher (`fetchWebContent`), the footer
  truncation of the HTML-to-Markdown normalizer (`htmlToMarkdown`) and the
  image localization pass (`downloadImagesInContent`);
* `src/src/pinboxApi.ts` — paginated item fetch (`getAllCollectionItems`)
  and the aggregation over collections (`getAllBookmarks`);
* `src/main.ts` — the delete flow (`deleteCurrentItem`).

JavaScript strings are modeled as `List Char` (the code only manipulates
BMP text, where one UTF-16 unit is one character).  Network and host
filesystem effects are modeled as explicit oracle parameters; the vault is
a list of path/content pairs.  The Obsidian `normalizePath` host primitive
is modeled as the identity on the already-normal paths produced here.
-/

namespace Pinbox

/-! ## JavaScript string primitives

The source uses `\s` character classes, `trim`, `indexOf`, `substring`,
`startsWith`, `includes` and first-occurrence `replace`.  These are modeled
on `List Char`.
-/

/-- The whitespace class used by JavaScript `\s` and `trim` on the ASCII
range (space, tab, newline, carriage return, vertical tab, form feed). -/
def isJsSpace (c : Char) : Bool :=
  c = ' ' || c = '\t' || c = '\n' || c = '\r' || c = '\x0b' || c = '\x0c'

/-- JavaScript `String.prototype.trim`: drop whitespace at both ends. -/
def trimWs (s : List Char) : List Char :=
  ((s.dropWhile isJsSpace).reverse.dropWhile isJsSpace).reverse

/-- `s.startsWith(pat)`: `pat` is an initial segment of `s`. -/
def startsWithL : List Char → List Char → Bool
  | _, [] => true
  | [], _ :: _ => false
  | c :: s, p :: ps => c = p && startsWithL s ps

/-- Scanning worker for `indexOf`: the least position `≥ i` (counting from
the start of the original string) at which `pat` occurs in `s`. -/
def indexOfAux (pat : List Char) : List Char → Nat → Option Nat
  | [], i => if startsWithL [] pat then some i else none
  | c :: s, i =>
    if startsWithL (c :: s) pat then some i else indexOfAux pat s (i + 1)

/-- JavaScript `s.indexOf(pat)`, as an `Option` (JS returns `-1` on miss). -/
def indexOfL (s pat : List Char) : Option Nat :=
  indexOfAux pat s 0

/-- JavaScript `s.includes(pat)`. -/
def containsSub (s pat : List Char) : Bool :=
  (indexOfL s pat).isSome

/-- JavaScript `s.replace(pat, repl)` with a plain-string pattern:
replace the first occurrence only; no occurrence leaves `s` unchanged. -/
def replaceFirst (s pat repl : List Char) : List Char :=
  match indexOfL s pat with
  | none => s
  | some i => s.take i ++ repl ++ s.drop (i + pat.length)

/-! ## Filename sanitization (`syncService.ts`, lines 130-137)

`sanitizeFileName` is
`name.replace(/[\\/:*?"<>|]/g, '-').replace(/\s+/g, ' ').trim().substring(0, 200)`.
-/

/-- The characters replaced by `-` in file names. -/
def invalidFileChars : List Char :=
  ['\\', '/', ':', '*', '?', '\"', '<', '>', '|']

/-- `name.replace(/[\\/:*?"<>|]/g, '-')`. -/
def replaceInvalid (s : List Char) : List Char :=
  s.map (fun c => if invalidFileChars.contains c then '-' else c)

/-- `name.replace(/\s+/g, ' ')`: collapse each maximal run of whitespace to
a single space.  The flag records whether the previous character was part
of a whitespace run. -/
def collapseWs : Bool → List Char → List Char
  | _, [] => []
  | inRun, c :: s =>
    if isJsSpace c then
      if inRun then collapseWs true s else ' ' :: collapseWs true s
    else
      c :: collapseWs false s

/-- `sanitizeFileName` from `syncService.ts` lines 130-137. -/
def sanitizeFileName (name : String) : String :=
  String.mk ((trimWs (collapseWs false (replaceInvalid name.toList))).take 200)

/-! ## Bookmarks and note paths -/

/-- A tag as delivered by the API: either a bare string or a record with a
`name` field (`pinboxApi.ts`, `PinboxTag`). -/
inductive BookmarkTag where
  | plain (s : String)
  | record (name : String)
deriving DecidableEq, Repr

/-- `PinboxBookmark` from `pinboxApi.ts`.  `title` is a plain string; the
JavaScript falsy test `bookmark.title ||` is true exactly on `""`. -/
structure Bookmark where
  id : Nat
  title : String
  url : String
  description : String
  tags : List BookmarkTag
  created_at : String
  item_type : String
  brief : Option String := none
  note : Option String := none
  thumbnail : Option String := none
  cover : Option String := none
  collection_id : Option Int := none
  view : Option Nat := none
deriving DecidableEq, Repr

/-- A bookmark with only the fields relevant to path derivation set, used
for concrete instances. -/
def mkBookmark (id : Nat) (title : String) : Bookmark :=
  { id := id, title := title, url := "u", description := "", tags := [],
    created_at := "2024-01-01", item_type := "article" }

/-- The file name derived in `createOrUpdateBookmark` (line 98):
`this.sanitizeFileName(bookmark.title || String(bookmark.id))`. -/
def deriveFileName (b : Bookmark) : String :=
  sanitizeFileName (if b.title = "" then Nat.repr b.id else b.title)

/-- The note path (line 99): `${this.syncFolder}/${fileName}.md`, with the
host `normalizePath` modeled as the identity. -/
def derivedPath (syncFolder : String) (b : Bookmark) : String :=
  syncFolder ++ "/" ++ deriveFileName b ++ ".md"

/-! ## Vault and materialization (`syncService.ts`, lines 32-128)

The vault is the list of Markdown files the host stores, as path/content
pairs.  Content generation (`fetchWebContent` plus
`generateMarkdownContent` plus image downloading) depends on the network
and the clock, so it is abstracted as an oracle `mkContent`; the
existence check and the write follow the source.  Image binaries live
under the separate image folder tree and never collide with the `.md`
note paths, so they are not tracked here.
-/

/-- The note files of the vault (path, content). -/
structure Vault where
  files : List (String × String)
deriving DecidableEq, Repr

/-- `this.app.vault.getAbstractFileByPath(filePath)` restricted to the
note files, as an existence test. -/
def hasFile (v : Vault) (path : String) : Bool :=
  v.files.any (fun f => f.1 = path)

/-- The result of materializing one bookmark. -/
inductive SyncResult where
  | created
  | skipped
deriving DecidableEq, Repr

/-- `createOrUpdateBookmark` (lines 97-128): skip when a file already
exists at the derived path, otherwise fetch and generate content (the
oracle `mkContent`) and create the file. -/
def createOrUpdateBookmark (syncFolder : String) (mkContent : Bookmark → String)
    (v : Vault) (b : Bookmark) : SyncResult × Vault :=
  let filePath := derivedPath syncFolder b
  if hasFile v filePath then
    (SyncResult.skipped, v)
  else
    (SyncResult.created, ⟨(filePath, mkContent b) :: v.files⟩)

/-- The per-bookmark loop of `sync` (lines 58-67): sequential, threading
the vault, counting created and skipped bookmarks. -/
def syncLoop (syncFolder : String) (mkContent : Bookmark → String) :
    List Bookmark → Vault → (Nat × Nat) × Vault
  | [], v => ((0, 0), v)
  | b :: rest, v =>
    let step := createOrUpdateBookmark syncFolder mkContent v b
    let r := syncLoop syncFolder mkContent rest step.2
    ((if step.1 = SyncResult.created then r.1.1 + 1 else r.1.1,
      if step.1 = SyncResult.skipped then r.1.2 + 1 else r.1.2), r.2)

/-- `sync` (lines 32-78): with the aggregated bookmark list already
fetched, returns (total, created, skipped) and the new vault.  An empty
list returns zero without touching the vault. -/
def sync (syncFolder : String) (mkContent : Bookmark → String)
    (v : Vault) (bookmarks : List Bookmark) : (Nat × Nat × Nat) × Vault :=
  if bookmarks.length = 0 then ((0, 0, 0), v)
  else
    let r := syncLoop syncFolder mkContent bookmarks v
    ((bookmarks.length, r.1.1, r.1.2), r.2)

/-! ## Pagination (`pinboxApi.ts`, lines 148-212)

`getCollectionItems` returns one page (`count` items starting at
`offset`) together with the `items_count` total.  The remote collection
is modeled as the list of its items, so a page at `offset` is
`(remote.drop offset).take count` and the reported total is
`remote.length` — exactly the premise of the pagination claim (each page
has `min(50, remaining)` items and the first page reports the count).
-/

/-- `PinboxCollection` from `pinboxApi.ts`. -/
structure Collection where
  id : Nat
  parent_id : Option Int
  name : String
  description : String
  created_at : String
  edited_at : String
  items_count : Nat
deriving DecidableEq, Repr

/-- One page of `getCollectionItems` (lines 148-181) over a remote
collection modeled as its item list. -/
def getCollectionItems (remote : List Bookmark) (count offs : Nat) :
    List Bookmark × Nat :=
  ((remote.drop offs).take count, remote.length)

/-- The `while (offset < total)` loop of `getAllCollectionItems`
(lines 197-204), returning the concatenated further pages and the list of
offsets requested. -/
def pagesLoop (remote : List Bookmark) (total offs : Nat) :
    List Bookmark × List Nat :=
  if offs < total then
    let page := getCollectionItems remote 50 offs
    let rest := pagesLoop remote total (offs + 50)
    (page.1 ++ rest.1, offs :: rest.2)
  else ([], [])
termination_by total - offs

/-- `getAllCollectionItems` (lines 183-212): one unconditional request at
offset 0 yielding the total, then pages at 50, 100, ... while the offset
is below the total.  Returns the aggregated items and the request
offsets in order. -/
def getAllCollectionItems (remote : List Bookmark) : List Bookmark × List Nat :=
  let firstPage := getCollectionItems remote 50 0
  let total := firstPage.2
  let rest := pagesLoop remote total 50
  (firstPage.1 ++ rest.1, 0 :: rest.2)

/-! ## Aggregation over collections (`pinboxApi.ts`, lines 214-248)

`getAllBookmarks` fetches the collection list, then all items of the
default collection (id 0), then the items of each listed collection; only
the per-listed-collection fetches are guarded by the inner try/catch that
logs and continues.  The remote is modeled by the outcome of the
collection listing and an oracle giving, per collection id, the outcome
of `getAllCollectionItems`.
-/

/-- `getAllBookmarks` (lines 214-248).  A listing failure or a failure of
the default-collection fetch propagates (the outer catch rethrows); a
failure for a listed collection is swallowed and skipped. -/
def getAllBookmarks (collections : Except String (List Collection))
    (fetchAll : Nat → Except String (List Bookmark)) :
    Except String (List Bookmark) :=
  match collections with
  | Except.error e => Except.error e
  | Except.ok cols =>
    match fetchAll 0 with
    | Except.error e => Except.error e
    | Except.ok defaultItems =>
      Except.ok (cols.foldl
        (fun acc c =>
          match fetchAll c.id with
          | Except.ok items => acc ++ items
          | Except.error _ => acc)
        defaultItems)

/-! ## Deletion (`main.ts`, lines 288-405, and `pinboxApi.ts` `deleteItem`)

`deleteCurrentItem` first runs its guards (file selected and present,
token set, frontmatter id found, user confirmed); then it calls the
remote `deleteItem`, which returns `true` on HTTP 200/204, `false` on
other statuses, and throws on a network error.  Only after a `true`
result does it trash the local note and, when image download is enabled
and the per-bookmark folder exists, the image subfolder.  The remote call
is an oracle `Except String Bool`, the guards a boolean, and the run
additionally returns the trace of actions performed in order.
-/

/-- The externally visible actions of the delete flow. -/
inductive DeleteAction where
  | remoteDelete
  | trashNote
  | trashImageFolder
deriving DecidableEq, Repr

/-- The local state touched by deletion. -/
structure LocalState where
  noteExists : Bool
  imageFolderExists : Bool
deriving DecidableEq, Repr

/-- `deleteCurrentItem` (`main.ts` lines 288-405): remote delete first;
local note and image subfolder are only removed after the remote delete
returned successfully.  The boolean result is the reported success. -/
def deleteCurrentItem (guardsOk : Bool) (remote : Except String Bool)
    (downloadImages : Bool) (s : LocalState) :
    LocalState × List DeleteAction × Bool :=
  if guardsOk then
    match remote with
    | Except.error _ => (s, [DeleteAction.remoteDelete], false)
    | Except.ok false => (s, [DeleteAction.remoteDelete], false)
    | Except.ok true =>
      let s1 : LocalState := { s with noteExists := false }
      if downloadImages then
        if s.imageFolderExists then
          ({ s1 with imageFolderExists := false },
           [DeleteAction.remoteDelete, DeleteAction.trashNote,
            DeleteAction.trashImageFolder], true)
        else (s1, [DeleteAction.remoteDelete, DeleteAction.trashNote], true)
      else (s1, [DeleteAction.remoteDelete, DeleteAction.trashNote], true)
  else (s, [], false)

/-! ## Content fetcher (`syncService.ts`, lines 318-463)

`fetchWebContent(url, retries = 3)` loops `attempt = 1 .. retries`.  The
network is an oracle mapping the attempt number to its outcome (a
response with status and body text, or a thrown network error), and the
HTML-to-Markdown conversion is an oracle `convert` (its footer/cleanup
stage is modeled separately below).  The run returns the result, the
list of backoff delays slept in order, and the number of requests
issued.  The loop is driven by the number of attempts still allowed
after the current one (`left = retries - attempt`), so the source guard
`attempt < retries` is the pattern `left = l + 1`.
-/

/-- The outcome of one attempt: an HTTP response or a thrown error. -/
inductive AttemptOutcome where
  | response (status : Nat) (text : String)
  | netError
deriving DecidableEq, Repr

/-- The loading placeholder phrases (lines 399-408). -/
def loadingIndicators : List String :=
  ["loading...", "loading", "加载中...", "加载中", "请稍候...", "正在加载",
   "load more", "skeleton"]

/-- The WeChat error-page phrases (line 388). -/
def wechatErrorPhrases : List String :=
  ["该内容已被发布者删除", "链接已过期", "此内容因违规无法查看"]

/-- `markdown.replace(/\s+/g, '').length` (line 411). -/
def contentLen (markdown : String) : Nat :=
  (markdown.toList.filter (fun c => !isJsSpace c)).length

/-- Lines 410 and 420-422: lowercase and trim the markdown, then test
whether any lowercased indicator occurs in it. -/
def hasLoadingIndicator (markdown : String) : Bool :=
  let mdLower := trimWs (markdown.toList.map Char.toLower)
  loadingIndicators.any (fun ind => containsSub mdLower (ind.toList.map Char.toLower))

/-- The body of the retry loop of `fetchWebContent` (lines 327-459).
`left` counts the attempts still allowed after this one and `attempt` is
the current 1-based attempt number (used in the delay formulas).  Result:
(converted markdown or null, delays slept, requests issued). -/
def fetchGo (convert : String → String) (responses : Nat → AttemptOutcome)
    (isWechat : Bool) : Nat → Nat → Option String × List Nat × Nat
  | left, attempt =>
    match responses attempt with
    | AttemptOutcome.netError =>
      match left with
      | Nat.succ l =>
        let r := fetchGo convert responses isWechat l (attempt + 1)
        (r.1, attempt * 1000 :: r.2.1, r.2.2 + 1)
      | 0 => (none, [], 1)
    | AttemptOutcome.response status text =>
      if status ≠ 200 then
        if 500 ≤ status || status = 429 || status = 408 then
          match left with
          | Nat.succ l =>
            let r := fetchGo convert responses isWechat l (attempt + 1)
            (r.1, attempt * 1000 :: r.2.1, r.2.2 + 1)
          | 0 => (none, [], 1)
        else (none, [], 1)
      else if trimWs text.toList = [] then (none, [], 1)
      else if isWechat &&
          wechatErrorPhrases.any (fun p => containsSub text.toList p.toList) then
        (none, [], 1)
      else
        let markdown := convert text
        if contentLen markdown < 100 then
          if hasLoadingIndicator markdown then
            match left with
            | Nat.succ l =>
              let r := fetchGo convert responses isWechat l (attempt + 1)
              (r.1, (2000 + attempt * 1000) :: r.2.1, r.2.2 + 1)
            | 0 => (none, [], 1)
          else (some markdown, [], 1)
        else (some markdown, [], 1)

/-- `fetchWebContent` (lines 318-463): upgrade the known insecure WeChat
URL to HTTPS, detect WeChat articles, then run the retry loop with the
default budget of 3 attempts. -/
def fetchWebContent (convert : String → String) (responses : Nat → AttemptOutcome)
    (url : String) (retries : Nat := 3) : Option String × List Nat × Nat :=
  let url2 :=
    if startsWithL url.toList "http://mp.weixin.qq.com".toList then
      String.mk (replaceFirst url.toList "http://".toList "https://".toList)
    else url
  let isWechat := containsSub url2.toList "mp.weixin.qq.com".toList
  fetchGo convert responses isWechat (retries - 1) 1

/-! ## Footer truncation (`syncService.ts`, lines 553-567)

After the Turndown conversion, the normalizer walks a fixed marker list
in order; at the first marker that occurs anywhere in the markdown it
truncates at that occurrence and breaks.
-/

/-- The footer boilerplate markers, in source order (lines 554-559). -/
def footerMarkers : List String :=
  ["预览时标签不可点", "微信扫一扫", "关注该公众号", "Scan QR Code"]

/-- The `for (const marker of footerMarkers)` loop (lines 561-567). -/
def truncateLoop : List String → List Char → List Char
  | [], md => md
  | m :: rest, md =>
    match indexOfL md m.toList with
    | some i => md.take i
    | none => truncateLoop rest md

/-- The footer truncation stage of `htmlToMarkdown` applied to the
converted markdown. -/
def truncateFooter (markdown : String) : String :=
  String.mk (truncateLoop footerMarkers markdown.toList)

/-! ## Image localization (`syncService.ts`, lines 139-275)

`downloadImagesInContent` scans the note body with the global regex
`/!\[([^\]]*)\]\(([^)]+)\)/g`, skips matches whose URL does not start
with `http://` or `https://`, downloads the others (the oracle `dl`
maps a URL to the vault-relative path of the stored image, or `none` on
a failed download), and finally applies the collected replacements with
first-occurrence `String.replace`.

Because both character classes of the regex exclude their closing
delimiter, the greedy JavaScript match at a position is exactly: `![`,
the longest run without `]`, `](`, a nonempty longest run without `)`,
then `)`.  The global scan takes the leftmost match, resumes after it,
and otherwise advances one character; the scan is written with the
character count as fuel, which each step strictly consumes.
-/

/-- Attempt the image regex at the start of the text.  On success returns
(full match, url group, rest of the text after the match). -/
def tryMatch (s : List Char) : Option (List Char × List Char × List Char) :=
  match s with
  | '!' :: '[' :: t =>
    let alt := t.takeWhile (fun c => c ≠ ']')
    match t.dropWhile (fun c => c ≠ ']') with
    | ']' :: '(' :: u =>
      let url := u.takeWhile (fun c => c ≠ ')')
      if url = [] then none
      else
        match u.dropWhile (fun c => c ≠ ')') with
        | ')' :: rest =>
          some ('!' :: '[' :: alt ++ ']' :: '(' :: url ++ [')'], url, rest)
        | _ => none
    | _ => none
  | _ => none

/-- The global scan: leftmost matches, non-overlapping, resuming after
each match.  A successful match consumes at least seven characters and a
failed position one, so `s.length` fuel is exact. -/
def findMatchesAux : Nat → List Char → List (List Char × List Char)
  | 0, _ => []
  | fuel + 1, s =>
    match tryMatch s with
    | some m => (m.1, m.2.1) :: findMatchesAux fuel m.2.2
    | none =>
      match s with
      | [] => []
      | _ :: t => findMatchesAux fuel t

/-- All matches of the image regex over the content, with their URL
groups, in order (the `while (match = imageRegex.exec(content))` loop of
lines 238-263). -/
def findMatches (s : List Char) : List (List Char × List Char) :=
  findMatchesAux s.length s

/-- Line 246: `imageUrl.startsWith('http://') || imageUrl.startsWith('https://')`. -/
def isHttpUrl (url : List Char) : Bool :=
  startsWithL url "http://".toList || startsWithL url "https://".toList

/-- Line 256: `vaultRelativeImagePath.split('/').pop() || vaultRelativeImagePath`. -/
def lastSegment (p : String) : String :=
  match (p.toList.splitOn '/').getLast? with
  | some seg => if seg = [] then p else String.mk seg
  | none => p

/-- `downloadImagesInContent` (lines 223-275) with image download
enabled: collect a replacement for every http(s) match whose download
succeeds, then apply them in order with first-occurrence replace. -/
def downloadImagesInContent (dl : String → Option String) (content : String) : String :=
  let replacements := (findMatches content.toList).filterMap (fun m =>
    if isHttpUrl m.2 then
      match dl (String.mk m.2) with
      | some path =>
        some (m.1, "![[".toList ++ (lastSegment path).toList ++ "]]".toList)
      | none => none
    else none)
  String.mk (replacements.foldl (fun c pr => replaceFirst c pr.1 pr.2) content.toList)

/-! ## Lemmas about the string primitives -/

theorem startsWithL_of_take (pat : List Char) :
    ∀ (s : List Char) (n : Nat),
      startsWithL (s.take n) pat = true → startsWithL s pat = true := by
  induction pat with
  | nil => intro s n _; cases s <;> rfl
  | cons p ps ih =>
    intro s n h
    cases s with
    | nil => simp [startsWithL] at h
    | cons c t =>
      cases n with
      | zero => simp [startsWithL] at h
      | succ m =>
        rw [List.take_succ_cons] at h
        simp only [startsWithL, Bool.and_eq_true, decide_eq_true_eq] at h ⊢
        exact ⟨h.1, ih t m h.2⟩

theorem indexOfAux_found (pat : List Char) :
    ∀ (s : List Char) (i j : Nat), indexOfAux pat s i = some j →
      i ≤ j ∧ startsWithL (s.drop (j - i)) pat = true := by
  intro s
  induction s with
  | nil =>
    intro i j h
    unfold indexOfAux at h
    split at h
    · cases h; simpa using ‹startsWithL [] pat = true›
    · cases h
  | cons c t ih =>
    intro i j h
    unfold indexOfAux at h
    split at h
    · cases h
      exact ⟨Nat.le_refl _, by simpa using ‹startsWithL (c :: t) pat = true›⟩
    · obtain ⟨hle, hst⟩ := ih (i + 1) j h
      refine ⟨by omega, ?_⟩
      have hji : j - i = (j - (i + 1)) + 1 := by omega
      rw [hji, List.drop_succ_cons]
      exact hst

theorem indexOfAux_minimal (pat : List Char) :
    ∀ (s : List Char) (i j : Nat), indexOfAux pat s i = some j →
      ∀ k, k < j - i → startsWithL (s.drop k) pat = false := by
  intro s
  induction s with
  | nil =>
    intro i j h k hk
    unfold indexOfAux at h
    split at h
    · cases h; omega
    · cases h
  | cons c t ih =>
    intro i j h k hk
    unfold indexOfAux at h
    split at h
    · cases h; omega
    · have hle : i + 1 ≤ j := (indexOfAux_found pat t (i + 1) j h).1
      cases k with
      | zero =>
        simpa using Bool.of_not_eq_true ‹¬ startsWithL (c :: t) pat = true›
      | succ m =>
        rw [List.drop_succ_cons]
        exact ih (i + 1) j h m (by omega)

/-- No occurrence of a nonempty pattern strictly before its first index. -/
theorem not_containsSub_take {s pat : List Char} {i : Nat}
    (hne : pat ≠ []) (h : indexOfL s pat = some i) :
    containsSub (s.take i) pat = false := by
  unfold containsSub
  cases hfind : indexOfL (s.take i) pat with
  | none => rfl
  | some j =>
    exfalso
    have hfound := indexOfAux_found pat (s.take i) 0 j hfind
    have hst : startsWithL ((s.take i).drop j) pat = true := by
      simpa using hfound.2
    rw [List.drop_take] at hst
    by_cases hj : j < i
    · have hS : startsWithL (s.drop j) pat = true :=
        startsWithL_of_take pat _ _ hst
      have hmin := indexOfAux_minimal pat s 0 i h j (by omega)
      rw [hS] at hmin
      cases hmin
    · have hz : i - j = 0 := by omega
      rw [hz, List.take_zero] at hst
      cases pat with
      | nil => exact hne rfl
      | cons p ps => simp [startsWithL] at hst

/-! ## Lemmas about filename sanitization -/

theorem mem_replaceInvalid {c : Char} {s : List Char}
    (h : c ∈ replaceInvalid s) : invalidFileChars.contains c = false := by
  unfold replaceInvalid at h
  obtain ⟨a, -, rfl⟩ := List.mem_map.mp h
  by_cases ha : invalidFileChars.contains a = true
  · simp only [ha, if_true]; decide
  · simp only [Bool.not_eq_true] at ha
    simp only [ha, if_false]
    exact ha

theorem mem_collapseWs {c : Char} :
    ∀ (b : Bool) (s : List Char), c ∈ collapseWs b s → c = ' ' ∨ c ∈ s := by
  intro b s
  induction s generalizing b with
  | nil => intro h; cases h
  | cons a t ih =>
    intro h
    unfold collapseWs at h
    split at h
    · split at h
      · rcases ih true h with h' | h'
        · exact Or.inl h'
        · exact Or.inr (List.mem_cons_of_mem _ h')
      · rcases List.mem_cons.mp h with h' | h'
        · exact Or.inl h'
        · rcases ih true h' with h'' | h''
          · exact Or.inl h''
          · exact Or.inr (List.mem_cons_of_mem _ h'')
    · rcases List.mem_cons.mp h with h' | h'
      · exact Or.inr (h' ▸ List.mem_cons_self _ _)
      · rcases ih false h' with h'' | h''
        · exact Or.inl h''
        · exact Or.inr (List.mem_cons_of_mem _ h'')

theorem mem_trimWs {c : Char} {s : List Char} (h : c ∈ trimWs s) : c ∈ s := by
  unfold trimWs at h
  rw [List.mem_reverse] at h
  have h1 := (List.dropWhile_sublist (l := (s.dropWhile isJsSpace).reverse)
    (p := isJsSpace)).mem h
  rw [List.mem_reverse] at h1
  exact (List.dropWhile_sublist (l := s) (p := isJsSpace)).mem h1

theorem sanitize_no_invalid (name : String) :
    ∀ c ∈ (sanitizeFileName name).toList, invalidFileChars.contains c = false := by
  intro c hc
  have hc1 : c ∈ (trimWs (collapseWs false (replaceInvalid name.toList))).take 200 := hc
  have hc2 := (List.take_sublist 200 _).mem hc1
  have hc3 := mem_trimWs hc2
  rcases mem_collapseWs false _ hc3 with h' | h'
  · subst h'; decide
  · exact mem_replaceInvalid h'

theorem sanitize_length (name : String) :
    (sanitizeFileName name).length ≤ 200 := by
  show ((trimWs (collapseWs false (replaceInvalid name.toList))).take 200).length ≤ 200
  rw [List.length_take]
  omega

theorem replaceInvalid_eq_self {s : List Char}
    (h : ∀ c ∈ s, invalidFileChars.contains c = false) : replaceInvalid s = s := by
  induction s with
  | nil => rfl
  | cons a t ih =>
    unfold replaceInvalid
    simp only [List.map_cons]
    rw [show (if invalidFileChars.contains a then '-' else a) = a from by
        rw [h a (List.mem_cons_self _ _)]; rfl]
    have := ih (fun c hc => h c (List.mem_cons_of_mem _ hc))
    unfold replaceInvalid at this
    rw [this]

theorem collapseWs_eq_self {s : List Char}
    (h : ∀ c ∈ s, isJsSpace c = false) : collapseWs false s = s := by
  induction s with
  | nil => rfl
  | cons a t ih =>
    unfold collapseWs
    simp only [h a (List.mem_cons_self _ _), Bool.false_eq_true, if_false,
      List.cons.injEq, true_and]
    exact ih (fun c hc => h c (List.mem_cons_of_mem _ hc))

theorem dropWhile_eq_self_of_no_ws {s : List Char}
    (h : ∀ c ∈ s, isJsSpace c = false) : s.dropWhile isJsSpace = s := by
  cases s with
  | nil => rfl
  | cons a t =>
    rw [List.dropWhile_cons, h a (List.mem_cons_self _ _)]
    simp

theorem trimWs_eq_self {s : List Char}
    (h : ∀ c ∈ s, isJsSpace c = false) : trimWs s = s := by
  unfold trimWs
  rw [dropWhile_eq_self_of_no_ws h]
  rw [dropWhile_eq_self_of_no_ws (fun c hc => h c (List.mem_reverse.mp hc))]
  exact List.reverse_reverse s

theorem sanitizeFileName_plain {s : String}
    (hinv : ∀ c ∈ s.toList, invalidFileChars.contains c = false)
    (hws : ∀ c ∈ s.toList, isJsSpace c = false)
    (hlen : s.toList.length ≤ 200) : sanitizeFileName s = s := by
  unfold sanitizeFileName
  rw [replaceInvalid_eq_self hinv, collapseWs_eq_self hws, trimWs_eq_self hws,
    List.take_of_length_le hlen]
  cases s
  rfl

/-- A character that the sanitizer leaves alone: neither replaced nor
whitespace. -/
def plainChar (c : Char) : Prop :=
  invalidFileChars.contains c = false ∧ isJsSpace c = false

theorem digitChar_plain {m : Nat} (h : m < 10) : plainChar (Nat.digitChar m) := by
  interval_cases m <;> exact ⟨by decide, by decide⟩

theorem toDigitsCore_plain :
    ∀ (fuel n : Nat) (ds : List Char), (∀ c ∈ ds, plainChar c) →
      ∀ c ∈ Nat.toDigitsCore 10 fuel n ds, plainChar c := by
  intro fuel
  induction fuel with
  | zero => intro n ds h c hc; exact h c hc
  | succ f ih =>
    intro n ds h c hc
    rw [Nat.toDigitsCore] at hc
    have hd : ∀ c ∈ Nat.digitChar (n % 10) :: ds, plainChar c := by
      intro c hc
      rcases List.mem_cons.mp hc with h' | h'
      · exact h' ▸ digitChar_plain (Nat.mod_lt _ (by omega))
      · exact h c h'
    split at hc
    · exact hd c hc
    · exact ih (n / 10) _ hd c hc

theorem repr_plain (n : Nat) : ∀ c ∈ (Nat.repr n).toList, plainChar c := by
  intro c hc
  have he : (Nat.repr n).toList = Nat.toDigitsCore 10 (n + 1) n [] := rfl
  rw [he] at hc
  exact toDigitsCore_plain (n + 1) n [] (by intro c hc; cases hc) c hc

/-- C8, claim theorem. Filename sanitization: for every bookmark title the
derived filename contains none of the forbidden characters and has length
at most 200; for an empty title the id string is used (the hypothesis
that the decimal id has at most 200 digits is vacuous for real ids). -/
theorem c8_filename_sanitization (b : Bookmark)
    (hid : (Nat.repr b.id).toList.length ≤ 200) :
    (∀ c ∈ (deriveFileName b).toList, invalidFileChars.contains c = false) ∧
    (deriveFileName b).length ≤ 200 ∧
    (b.title = "" → deriveFileName b = Nat.repr b.id) := by
  refine ⟨sanitize_no_invalid _, sanitize_length _, fun ht => ?_⟩
  unfold deriveFileName
  rw [if_pos ht]
  exact sanitizeFileName_plain
    (fun c hc => (repr_plain b.id c hc).1)
    (fun c hc => (repr_plain b.id c hc).2)
    hid

/-- C8, witness: a concrete bookmark with title `A/B:C*D?"E<F>G|H` and a
concrete empty-title bookmark with id 42. -/
theorem c8_filename_sanitization_witness :
    (∀ c ∈ (deriveFileName (mkBookmark 1 "A/B:C*D?\"E<F>G|H")).toList,
      invalidFileChars.contains c = false) ∧
    deriveFileName (mkBookmark 42 "") = Nat.repr 42 :=
  ⟨(c8_filename_sanitization _ (by decide)).1,
   (c8_filename_sanitization _ (by decide)).2.2 rfl⟩

/-! ## The whitespace-only title edge case -/

theorem ws_not_invalid {c : Char} (h : isJsSpace c = true) :
    invalidFileChars.contains c = false := by
  unfold isJsSpace at h
  simp only [Bool.or_eq_true, decide_eq_true_eq] at h
  rcases h with ((((h | h) | h) | h) | h) | h <;> subst h <;> decide

theorem collapseWs_true_all_ws {s : List Char}
    (h : ∀ c ∈ s, isJsSpace c = true) : collapseWs true s = [] := by
  induction s with
  | nil => rfl
  | cons a t ih =>
    unfold collapseWs
    simp only [h a (List.mem_cons_self _ _), if_true]
    exact ih (fun c hc => h c (List.mem_cons_of_mem _ hc))

theorem collapseWs_false_all_ws {s : List Char} (hne : s ≠ [])
    (h : ∀ c ∈ s, isJsSpace c = true) : collapseWs false s = [' '] := by
  cases s with
  | nil => exact absurd rfl hne
  | cons a t =>
    unfold collapseWs
    simp only [h a (List.mem_cons_self _ _), if_true, Bool.false_eq_true, if_false]
    rw [collapseWs_true_all_ws (fun c hc => h c (List.mem_cons_of_mem _ hc))]

theorem toList_ne_nil {s : String} (h : s ≠ "") : s.toList ≠ [] := by
  intro hl
  apply h
  cases s with
  | mk data => cases data with
    | nil => rfl
    | cons c t => cases hl

/-- C9, claim theorem. A nonempty all-whitespace title is not replaced by
the id: it sanitizes to the empty string and the note path degenerates to
`<syncFolder>/.md`. -/
theorem c9_whitespace_title (syncFolder : String) (b : Bookmark)
    (hne : b.title ≠ "") (hws : ∀ c ∈ b.title.toList, isJsSpace c = true) :
    derivedPath syncFolder b = syncFolder ++ "/.md" := by
  have hfn : deriveFileName b = "" := by
    unfold deriveFileName
    rw [if_neg hne]
    unfold sanitizeFileName
    rw [replaceInvalid_eq_self (fun c hc => ws_not_invalid (hws c hc)),
      collapseWs_false_all_ws (toList_ne_nil hne) hws]
    rfl
  unfold derivedPath
  rw [hfn, String.append_empty, String.append_assoc]
  congr 1

/-- C9, witness: title `" \t "` under sync folder `Pinbox`. -/
theorem c9_whitespace_title_witness :
    derivedPath "Pinbox" (mkBookmark 7 " \t ") = "Pinbox/.md" :=
  c9_whitespace_title "Pinbox" _ (by decide) (by decide)

/-! ## Sync idempotence -/

theorem hasFile_create {v : Vault} {p q : String} {c : String}
    (h : hasFile v p = true) : hasFile ⟨(q, c) :: v.files⟩ p = true := by
  unfold hasFile at h ⊢
  simp only [List.any_cons, Bool.or_eq_true]
  exact Or.inr h

theorem hasFile_syncLoop_mono (sf : String) (mk : Bookmark → String) :
    ∀ (bs : List Bookmark) (v : Vault) (p : String), hasFile v p = true →
      hasFile (syncLoop sf mk bs v).2 p = true := by
  intro bs
  induction bs with
  | nil => intro v p h; exact h
  | cons b rest ih =>
    intro v p h
    unfold syncLoop createOrUpdateBookmark
    by_cases hb : hasFile v (derivedPath sf b) = true
    · simp only [hb, if_true]
      exact ih v p h
    · simp only [Bool.not_eq_true] at hb
      simp only [hb, Bool.false_eq_true, if_false]
      exact ih _ p (hasFile_create h)

theorem syncLoop_covers (sf : String) (mk : Bookmark → String) :
    ∀ (bs : List Bookmark) (v : Vault) (b : Bookmark), b ∈ bs →
      hasFile (syncLoop sf mk bs v).2 (derivedPath sf b) = true := by
  intro bs
  induction bs with
  | nil => intro v b h; cases h
  | cons b0 rest ih =>
    intro v b hmem
    rcases List.mem_cons.mp hmem with h | h
    · subst h
      unfold syncLoop createOrUpdateBookmark
      by_cases hb : hasFile v (derivedPath sf b) = true
      · simp only [hb, if_true]
        exact hasFile_syncLoop_mono sf mk rest v _ hb
      · simp only [Bool.not_eq_true] at hb
        simp only [hb, Bool.false_eq_true, if_false]
        refine hasFile_syncLoop_mono sf mk rest _ _ ?_
        unfold hasFile
        simp
    · unfold syncLoop createOrUpdateBookmark
      by_cases hb : hasFile v (derivedPath sf b0) = true
      · simp only [hb, if_true]
        exact ih v b h
      · simp only [Bool.not_eq_true] at hb
        simp only [hb, Bool.false_eq_true, if_false]
        exact ih _ b h

theorem syncLoop_all_present (sf : String) (mk : Bookmark → String) :
    ∀ (bs : List Bookmark) (v : Vault),
      (∀ b ∈ bs, hasFile v (derivedPath sf b) = true) →
      syncLoop sf mk bs v = ((0, bs.length), v) := by
  intro bs
  induction bs with
  | nil => intro v _; rfl
  | cons b rest ih =>
    intro v h
    unfold syncLoop createOrUpdateBookmark
    simp only [h b (List.mem_cons_self _ _), if_true]
    rw [ih v (fun b' hb' => h b' (List.mem_cons_of_mem _ hb'))]
    simp [List.length_cons]

/-- C1, claim theorem. Idempotence by presence: materializing a bookmark
whose derived path already exists returns `skipped` and leaves the vault
untouched; consequently a second `sync` over the same bookmark list
creates zero notes, skips every bookmark, and leaves the vault of the
first run unchanged. -/
theorem c1_sync_idempotent (sf : String) (mk : Bookmark → String)
    (v : Vault) (bs : List Bookmark) :
    (∀ b : Bookmark, hasFile v (derivedPath sf b) = true →
      createOrUpdateBookmark sf mk v b = (SyncResult.skipped, v)) ∧
    (sync sf mk (sync sf mk v bs).2 bs).1.2.1 = 0 ∧
    (sync sf mk (sync sf mk v bs).2 bs).1.2.2 = bs.length ∧
    (sync sf mk (sync sf mk v bs).2 bs).2 = (sync sf mk v bs).2 := by
  constructor
  · intro b hb
    unfold createOrUpdateBookmark
    simp only [hb, if_true]
  · by_cases hbs : bs.length = 0
    · rw [List.length_eq_zero] at hbs
      subst hbs
      exact ⟨rfl, rfl, rfl⟩
    · have hv1 : (sync sf mk v bs).2 = (syncLoop sf mk bs v).2 := by
        unfold sync
        simp only [hbs, if_false]
      have hcov : ∀ b ∈ bs,
          hasFile (sync sf mk v bs).2 (derivedPath sf b) = true := by
        intro b hb
        rw [hv1]
        exact syncLoop_covers sf mk bs v b hb
      have hsync2 : ∀ v' : Vault, (∀ b ∈ bs, hasFile v' (derivedPath sf b) = true) →
          sync sf mk v' bs = ((bs.length, 0, bs.length), v') := by
        intro v' hv'
        unfold sync
        rw [if_neg hbs, syncLoop_all_present sf mk bs v' hv']
      rw [hsync2 _ hcov]
      exact ⟨rfl, rfl, rfl⟩

/-- C1, witness: a vault already holding `F/x.md` skips that bookmark,
and a second sync over a one-bookmark list creates zero notes. -/
theorem c1_sync_idempotent_witness :
    createOrUpdateBookmark "F" (fun _ => "c") ⟨[("F/x.md", "c")]⟩ (mkBookmark 1 "x")
      = (SyncResult.skipped, ⟨[("F/x.md", "c")]⟩) ∧
    (sync "F" (fun _ => "c")
      (sync "F" (fun _ => "c") ⟨[]⟩ [mkBookmark 1 "x"]).2 [mkBookmark 1 "x"]).1.2.1 = 0 :=
  ⟨(c1_sync_idempotent "F" (fun _ => "c") ⟨[("F/x.md", "c")]⟩ []).1 _ (by decide),
   (c1_sync_idempotent "F" (fun _ => "c") ⟨[]⟩ [mkBookmark 1 "x"]).2.1⟩

/-! ## Pagination completeness -/

theorem pagesLoop_items (remote : List Bookmark) :
    ∀ (d offs : Nat), remote.length - offs ≤ d →
      (pagesLoop remote remote.length offs).1 = remote.drop offs := by
  intro d
  induction d with
  | zero =>
    intro offs h
    rw [pagesLoop, if_neg (by omega)]
    exact (List.drop_eq_nil_of_le (by omega)).symm
  | succ n ih =>
    intro offs h
    by_cases hlt : offs < remote.length
    · rw [pagesLoop, if_pos hlt]
      simp only [getCollectionItems]
      rw [ih (offs + 50) (by omega), ← List.drop_drop]
      exact List.take_append_drop 50 (remote.drop offs)
    · rw [pagesLoop, if_neg hlt]
      exact (List.drop_eq_nil_of_le (by omega)).symm

theorem pagesLoop_offsets (remote : List Bookmark) (total : Nat) :
    ∀ (d offs : Nat), total - offs ≤ d →
      (pagesLoop remote total offs).2 =
        (List.range ((total - offs + 49) / 50)).map (fun i => offs + i * 50) := by
  intro d
  induction d with
  | zero =>
    intro offs h
    rw [pagesLoop, if_neg (by omega)]
    have hz : (total - offs + 49) / 50 = 0 := by omega
    rw [hz]
    rfl
  | succ n ih =>
    intro offs h
    by_cases hlt : offs < total
    · rw [pagesLoop, if_pos hlt]
      simp only []
      rw [ih (offs + 50) (by omega)]
      have harith : (total - offs + 49) / 50 = (total - (offs + 50) + 49) / 50 + 1 := by
        omega
      rw [harith, List.range_succ_eq_map, List.map_cons, List.map_map,
        List.cons_eq_cons]
      constructor
      · show offs = offs + 0 * 50
        omega
      · apply List.map_congr_left
        intro i _
        show offs + 50 + i * 50 = offs + (i + 1) * 50
        omega
    · rw [pagesLoop, if_neg hlt]
      have hz : (total - offs + 49) / 50 = 0 := by omega
      rw [hz]
      rfl

/-- C2, claim theorem. Pagination completeness: over a remote collection
of N items (each page returning `min(50, remaining)` items and the first
page reporting the count N), `getAllCollectionItems` returns exactly the
N items in request order and issues `max 1 ⌈N/50⌉` requests at offsets
0, 50, 100, .... -/
theorem c2_pagination_complete (remote : List Bookmark) :
    (getAllCollectionItems remote).1 = remote ∧
    (getAllCollectionItems remote).2.length = max 1 ((remote.length + 49) / 50) ∧
    (getAllCollectionItems remote).2 =
      (List.range (max 1 ((remote.length + 49) / 50))).map (fun i => i * 50) := by
  have hoff := pagesLoop_offsets remote remote.length remote.length 50 (by omega)
  have hofs3 : (getAllCollectionItems remote).2 =
      (List.range (max 1 ((remote.length + 49) / 50))).map (fun i => i * 50) := by
    show 0 :: (pagesLoop remote remote.length 50).2 = _
    rw [hoff]
    have harith : max 1 ((remote.length + 49) / 50)
        = (remote.length - 50 + 49) / 50 + 1 := by omega
    rw [harith, List.range_succ_eq_map, List.map_cons, List.map_map,
      List.cons_eq_cons]
    constructor
    · show (0 : Nat) = 0 * 50
      omega
    · apply List.map_congr_left
      intro i _
      show 50 + i * 50 = (i + 1) * 50
      omega
  refine ⟨?_, ?_, hofs3⟩
  · show (remote.drop 0).take 50 ++ (pagesLoop remote remote.length 50).1 = remote
    rw [List.drop_zero, pagesLoop_items remote remote.length 50 (by omega)]
    exact List.take_append_drop 50 remote
  · rw [hofs3, List.length_map, List.length_range]

/-! ## Aggregation: partial failure tolerance -/

theorem getAllBookmarks_foldl (fetchAll : Nat → Except String (List Bookmark)) :
    ∀ (cols : List Collection) (acc : List Bookmark),
      cols.foldl (fun acc c =>
          match fetchAll c.id with
          | Except.ok items => acc ++ items
          | Except.error _ => acc) acc
        = acc ++ (cols.filterMap (fun c => (fetchAll c.id).toOption)).flatten := by
  intro cols
  induction cols with
  | nil => intro acc; simp
  | cons c cs ih =>
    intro acc
    rw [List.foldl_cons]
    cases hf : fetchAll c.id with
    | ok items =>
      simp only [hf, ih, List.filterMap_cons, Except.toOption, List.flatten_cons,
        List.append_assoc]
    | error e =>
      simp only [hf, ih, List.filterMap_cons, Except.toOption]

/-- C3, counterexample to the claim as stated: when fetching the items of
the default collection (id 0) fails, `getAllBookmarks` aborts with the
error instead of continuing with a partial result. -/
theorem c3_counterexample :
    getAllBookmarks (Except.ok []) (fun _ => Except.error "network down")
      = Except.error "network down" := rfl

/-- C3, amended claim theorem. Partial-failure tolerance holds for the
listed collections only: when the collection listing and the default
collection (id 0) fetch succeed, the aggregation always succeeds, keeping
the default items followed by the items of each listed collection whose
fetch succeeded, in order — failures of listed collections are skipped. -/
theorem c3_partial_failure (cols : List Collection)
    (fetchAll : Nat → Except String (List Bookmark)) (d : List Bookmark)
    (h0 : fetchAll 0 = Except.ok d) :
    getAllBookmarks (Except.ok cols) fetchAll =
      Except.ok (d ++ (cols.filterMap (fun c => (fetchAll c.id).toOption)).flatten) := by
  unfold getAllBookmarks
  rw [h0]
  exact congrArg Except.ok (getAllBookmarks_foldl fetchAll cols d)

/-- A listed collection whose items fetch will fail in the C3 witness. -/
def colW : Collection :=
  { id := 5, parent_id := none, name := "c", description := "", created_at := "",
    edited_at := "", items_count := 1 }

/-- The remote oracle of the C3 witness: the default collection succeeds,
every other collection fails. -/
def fetchW : Nat → Except String (List Bookmark) :=
  fun id => if id = 0 then Except.ok [mkBookmark 1 "x"] else Except.error "boom"

/-- C3, witness: one failing listed collection is skipped and the default
items survive. -/
theorem c3_partial_failure_witness :
    getAllBookmarks (Except.ok [colW]) fetchW = Except.ok [mkBookmark 1 "x"] := by
  have h := c3_partial_failure [colW] fetchW [mkBookmark 1 "x"] rfl
  simpa [colW, fetchW, Except.toOption] using h

/-! ## Deletion ordering -/

/-- C4, claim theorem. The remote delete is always the first action of any
nonempty run of the delete flow, and whenever the remote delete fails
(returns false or throws) the local state is untouched: the note is not
trashed and no image subfolder is removed. -/
theorem c4_delete_remote_first (g : Bool) (remote : Except String Bool)
    (dl : Bool) (s : LocalState) :
    ((deleteCurrentItem g remote dl s).2.1 ≠ [] →
      ((deleteCurrentItem g remote dl s).2.1).head? = some DeleteAction.remoteDelete) ∧
    (remote ≠ Except.ok true →
      (deleteCurrentItem g remote dl s).1 = s ∧
      DeleteAction.trashNote ∉ (deleteCurrentItem g remote dl s).2.1 ∧
      DeleteAction.trashImageFolder ∉ (deleteCurrentItem g remote dl s).2.1) := by
  cases g with
  | false => simp [deleteCurrentItem]
  | true =>
    cases remote with
    | error e => simp [deleteCurrentItem]
    | ok b =>
      cases b with
      | false => simp [deleteCurrentItem]
      | true =>
        refine ⟨?_, fun hne => absurd rfl hne⟩
        intro _
        cases dl <;> cases hif : s.imageFolderExists <;>
          simp [deleteCurrentItem, hif]

/-- C4, witness: a thrown remote delete leaves note and image folder in
place. -/
theorem c4_delete_remote_first_witness :
    (deleteCurrentItem true (Except.error "net") true ⟨true, true⟩).1 = ⟨true, true⟩ ∧
    DeleteAction.trashNote ∉ (deleteCurrentItem true (Except.error "net") true
      ⟨true, true⟩).2.1 :=
  ⟨((c4_delete_remote_first true (Except.error "net") true ⟨true, true⟩).2
      (by simp)).1,
   ((c4_delete_remote_first true (Except.error "net") true ⟨true, true⟩).2
      (by simp)).2.1⟩

/-! ## Footer truncation -/

/-- C5, counterexample to the claim as stated: the marker loop checks
`预览时标签不可点` before `微信扫一扫` and breaks after the first hit, so on
markdown containing `微信扫一扫` before a later `预览时标签不可点` it truncates
at the later phrase and the output still contains `微信扫一扫` — the
truncation is neither at the earliest occurrence nor does it remove the
content from `微信扫一扫` onward. -/
theorem c5_counterexample :
    truncateFooter "A微信扫一扫B预览时标签不可点C" = "A微信扫一扫B" ∧
    containsSub "A微信扫一扫B".toList "微信扫一扫".toList = true :=
  ⟨by decide, by decide⟩

/-- C5, amended claim theorem. The normalizer walks the marker list in the
fixed order 预览时标签不可点, 微信扫一扫, 关注该公众号, Scan QR Code and truncates
at the first occurrence of the first marker (in that order) present.  In
particular, markdown that contains 微信扫一扫 but not 预览时标签不可点 is cut at
the first occurrence of 微信扫一扫, and the result no longer contains the
phrase. -/
theorem c5_truncate_first_marker (md : String) (i : Nat)
    (h0 : indexOfL md.toList "预览时标签不可点".toList = none)
    (h1 : indexOfL md.toList "微信扫一扫".toList = some i) :
    truncateFooter md = String.mk (md.toList.take i) ∧
    containsSub (truncateFooter md).toList "微信扫一扫".toList = false := by
  have htr : truncateFooter md = String.mk (md.toList.take i) := by
    unfold truncateFooter footerMarkers
    simp only [truncateLoop, h0, h1]
  refine ⟨htr, ?_⟩
  rw [htr]
  exact not_containsSub_take (by decide) h1

/-- C5, witness: markdown containing only the 微信扫一扫 marker is cut at its
first occurrence. -/
theorem c5_truncate_first_marker_witness :
    truncateFooter "A微信扫一扫B" = String.mk ("A微信扫一扫B".toList.take 1) ∧
    containsSub (truncateFooter "A微信扫一扫B").toList "微信扫一扫".toList = false :=
  c5_truncate_first_marker "A微信扫一扫B" 1 (by decide) (by decide)

/-! ## Fetch retry and backoff -/

/-- C6, claim theorem. A URL answering HTTP 503 on the first two attempts
and HTTP 200 with convertible HTML (nonempty body, at least 100
non-whitespace characters after conversion) on the third is retried
exactly twice with backoff delays 1000 ms then 2000 ms; the call issues 3
requests in total and returns the markdown converted from the third
response. -/
theorem c6_fetch_retry (convert : String → String) (responses : Nat → AttemptOutcome)
    (url : String) (t1 t2 html : String)
    (hS : startsWithL url.toList "http://mp.weixin.qq.com".toList = false)
    (hW : containsSub url.toList "mp.weixin.qq.com".toList = false)
    (r1 : responses 1 = AttemptOutcome.response 503 t1)
    (r2 : responses 2 = AttemptOutcome.response 503 t2)
    (r3 : responses 3 = AttemptOutcome.response 200 html)
    (hne : trimWs html.toList ≠ [])
    (hlen : 100 ≤ contentLen (convert html)) :
    fetchWebContent convert responses url = (some (convert html), [1000, 2000], 3) := by
  unfold fetchWebContent
  rw [hS]
  simp only [Bool.false_eq_true, if_false]
  rw [hW]
  have e3 : fetchGo convert responses false 0 3 = (some (convert html), [], 1) := by
    rw [fetchGo, r3]
    simp only [ne_eq, not_true_eq_false, if_false, hne, Bool.false_and,
      Bool.false_eq_true]
    rw [if_neg (by omega : ¬ contentLen (convert html) < 100)]
  have e2 : fetchGo convert responses false 1 2 = (some (convert html), [2000], 2) := by
    rw [fetchGo, r2]
    simp only [ne_eq, not_true_eq_false, if_false, Bool.false_eq_true]
    norm_num
    rw [e3]
    exact ⟨rfl, rfl, rfl⟩
  have e1 : fetchGo convert responses false 2 1
      = (some (convert html), [1000, 2000], 3) := by
    rw [fetchGo, r1]
    simp only [ne_eq, not_true_eq_false, if_false, Bool.false_eq_true]
    norm_num
    rw [e2]
    exact ⟨rfl, rfl, rfl⟩
  exact e1

/-- The network oracle of the C6 witness: two 503 responses, then a 200
response with 120 letters. -/
def c6Resp : Nat → AttemptOutcome :=
  fun n => if n ≤ 2 then AttemptOutcome.response 503 "oops"
    else AttemptOutcome.response 200 (String.mk (List.replicate 120 'a'))

/-- C6, witness: the 503/503/200 schedule at a plain URL. -/
theorem c6_fetch_retry_witness :
    fetchWebContent (fun s => s) c6Resp "https://example.com"
      = (some (String.mk (List.replicate 120 'a')), [1000, 2000], 3) :=
  c6_fetch_retry (fun s => s) c6Resp "https://example.com" "oops" "oops"
    (String.mk (List.replicate 120 'a'))
    (by decide) (by decide) rfl rfl rfl (by decide) (by decide)

/-! ## Placeholder-content handling -/

/-- C7, claim theorem. When every attempt returns HTTP 200 whose converted
markdown is shorter than 100 non-whitespace characters and contains a
loading placeholder, the fetch retries with the longer backoff
2000 + attempt × 1000 (3000 ms then 4000 ms) and returns null after the
3 attempts; short content without a placeholder phrase is returned as-is
on the first attempt. -/
theorem c7_placeholder (convert : String → String) (url : String)
    (hS : startsWithL url.toList "http://mp.weixin.qq.com".toList = false)
    (hW : containsSub url.toList "mp.weixin.qq.com".toList = false) :
    (∀ (responses : Nat → AttemptOutcome) (a1 a2 a3 : String),
      responses 1 = AttemptOutcome.response 200 a1 →
      responses 2 = AttemptOutcome.response 200 a2 →
      responses 3 = AttemptOutcome.response 200 a3 →
      (∀ a ∈ [a1, a2, a3], trimWs a.toList ≠ [] ∧
        contentLen (convert a) < 100 ∧ hasLoadingIndicator (convert a) = true) →
      fetchWebContent convert responses url = (none, [3000, 4000], 3)) ∧
    (∀ (responses : Nat → AttemptOutcome) (a1 : String),
      responses 1 = AttemptOutcome.response 200 a1 →
      trimWs a1.toList ≠ [] →
      contentLen (convert a1) < 100 →
      hasLoadingIndicator (convert a1) = false →
      fetchWebContent convert responses url = (some (convert a1), [], 1)) := by
  constructor
  · intro responses a1 a2 a3 r1 r2 r3 hall
    obtain ⟨hne1, hsh1, hld1⟩ := hall a1 (by simp)
    obtain ⟨hne2, hsh2, hld2⟩ := hall a2 (by simp)
    obtain ⟨hne3, hsh3, hld3⟩ := hall a3 (by simp)
    unfold fetchWebContent
    rw [hS]
    simp only [Bool.false_eq_true, if_false]
    rw [hW]
    have e3 : fetchGo convert responses false 0 3 = (none, [], 1) := by
      rw [fetchGo, r3]
      simp only [ne_eq, not_true_eq_false, if_false, hne3, Bool.false_and,
        Bool.false_eq_true]
      rw [if_pos hsh3, if_pos hld3]
    have e2 : fetchGo convert responses false 1 2 = (none, [4000], 2) := by
      rw [fetchGo, r2]
      simp only [ne_eq, not_true_eq_false, if_false, hne2, Bool.false_and,
        Bool.false_eq_true]
      rw [if_pos hsh2, if_pos hld2]
      norm_num
      rw [e3]
      exact ⟨rfl, rfl, rfl⟩
    have e1 : fetchGo convert responses false 2 1 = (none, [3000, 4000], 3) := by
      rw [fetchGo, r1]
      simp only [ne_eq, not_true_eq_false, if_false, hne1, Bool.false_and,
        Bool.false_eq_true]
      rw [if_pos hsh1, if_pos hld1]
      norm_num
      rw [e2]
      exact ⟨rfl, rfl, rfl⟩
    exact e1
  · intro responses a1 r1 hne1 hsh1 hld1
    unfold fetchWebContent
    rw [hS]
    simp only [Bool.false_eq_true, if_false]
    rw [hW]
    rw [fetchGo, r1]
    simp only [ne_eq, not_true_eq_false, if_false, hne1, Bool.false_and,
      Bool.false_eq_true]
    rw [if_pos hsh1, if_neg (by rw [hld1]; exact Bool.false_ne_true)]

/-- The network oracle of the C7 witness, part A: every attempt answers
200 with a bare loading placeholder. -/
def c7RespA : Nat → AttemptOutcome :=
  fun _ => AttemptOutcome.response 200 "加载中"

/-- The network oracle of the C7 witness, part B: a short page without a
placeholder phrase. -/
def c7RespB : Nat → AttemptOutcome :=
  fun _ => AttemptOutcome.response 200 "short"

/-- C7, witness: the all-placeholder schedule returns null with backoffs
3000 and 4000; the short non-placeholder page is returned as-is. -/
theorem c7_placeholder_witness :
    fetchWebContent (fun s => s) c7RespA "https://example.com" = (none, [3000, 4000], 3) ∧
    fetchWebContent (fun s => s) c7RespB "https://example.com" = (some "short", [], 1) :=
  ⟨(c7_placeholder (fun s => s) "https://example.com" (by decide) (by decide)).1
      c7RespA "加载中" "加载中" "加载中" rfl rfl rfl (by decide),
   (c7_placeholder (fun s => s) "https://example.com" (by decide) (by decide)).2
      c7RespB "short" rfl (by decide) (by decide) (by decide)⟩

/-! ## Image localization -/

/-- The C10 content: the text of its second reference (http, download
succeeds) also occurs inside its first reference (non-http, skipped). -/
def c10Content : String := "![x](z![a](http://h)![a](http://h)"

/-- The download oracle of C10: only `http://h` downloads, landing at
`pics/42/1.jpg`. -/
def c10Dl : String → Option String :=
  fun u => if u = "http://h" then some "pics/42/1.jpg" else none

/-- C10, counterexample to the claim as stated: the body has two regex
matches — a first reference with the non-http URL `z![a](http://h` and a
second reference with URL `http://h` whose download succeeds.  The
replacement for the second match rewrites the FIRST occurrence of its
text, which lies inside the first reference, so the non-http reference is
not left character-for-character unchanged (its text no longer occurs in
the output), while the successful reference itself survives unreplaced. -/
theorem c10_counterexample :
    (findMatches c10Content.toList).map (fun m => (String.mk m.1, String.mk m.2))
      = [("![x](z![a](http://h)", "z![a](http://h"), ("![a](http://h)", "http://h")] ∧
    isHttpUrl "z![a](http://h".toList = false ∧
    downloadImagesInContent c10Dl c10Content = "![x](z![[1.jpg]]![a](http://h)" ∧
    containsSub (downloadImagesInContent c10Dl c10Content).toList
      "![x](z![a](http://h)".toList = false :=
  ⟨by decide, by decide, by decide, by decide⟩

/-- C10, amended claim theorem. Replacements are first-occurrence string
substitutions collected in match order, and only http(s) references with
a successful download contribute one.  Hence (a) when no reference is an
http(s) URL with a successful download, the body is returned
character-for-character unchanged; and (b) when the body contains exactly
one reference and its download succeeds, exactly the first occurrence of
its text is rewritten to the `![[filename]]` embed and all surrounding
text is unchanged.  (With several references, a successful reference
whose text first occurs inside an earlier reference rewrites that earlier
occurrence instead, as the counterexample shows.) -/
theorem c10_image_frame (dl : String → Option String) (content : String) :
    ((∀ m ∈ findMatches content.toList,
        isHttpUrl m.2 = false ∨ dl (String.mk m.2) = none) →
      downloadImagesInContent dl content = content) ∧
    (∀ (full url : List Char) (path : String) (i : Nat),
      findMatches content.toList = [(full, url)] →
      isHttpUrl url = true →
      dl (String.mk url) = some path →
      indexOfL content.toList full = some i →
      downloadImagesInContent dl content
        = String.mk (content.toList.take i
            ++ ("![[".toList ++ (lastSegment path).toList ++ "]]".toList)
            ++ content.toList.drop (i + full.length))) := by
  constructor
  · intro hall
    unfold downloadImagesInContent
    have hrep : (findMatches content.toList).filterMap (fun m =>
        if isHttpUrl m.2 then
          match dl (String.mk m.2) with
          | some path =>
            some (m.1, "![[".toList ++ (lastSegment path).toList ++ "]]".toList)
          | none => none
        else none) = [] := by
      rw [List.filterMap_eq_nil_iff]
      intro m hm
      rcases hall m hm with h | h
      · simp [h]
      · simp [h]
    rw [hrep]
    show String.mk content.toList = content
    cases content
    rfl
  · intro full url path i hm hhttp hdl hidx
    unfold downloadImagesInContent
    rw [hm]
    simp only [List.filterMap_cons, hhttp, if_true, hdl, List.filterMap_nil]
    show String.mk (replaceFirst content.toList full
      ("![[".toList ++ (lastSegment path).toList ++ "]]".toList)) = _
    unfold replaceFirst
    rw [hidx]

/-- C10, witness: a single non-http reference is left unchanged, and a
single successful http reference is spliced in place. -/
theorem c10_image_frame_witness :
    downloadImagesInContent c10Dl "![a](u)" = "![a](u)" ∧
    downloadImagesInContent c10Dl "A ![a](http://h) B"
      = String.mk ("A ![a](http://h) B".toList.take 2
          ++ ("![[".toList ++ (lastSegment "pics/42/1.jpg").toList ++ "]]".toList)
          ++ "A ![a](http://h) B".toList.drop (2 + "![a](http://h)".toList.length)) :=
  ⟨(c10_image_frame c10Dl "![a](u)").1 (by decide),
   (c10_image_frame c10Dl "A ![a](http://h) B").2 "![a](http://h)".toList
      "http://h".toList "pics/42/1.jpg" 2 (by decide) (by decide) (by decide)
      (by decide)⟩

end Pinbox
